import Mathlib

/-!
Shallow embedding of the configuration-normalization and strategy-selection
engine of the jaeger-operator strategy controller
(`pkg/strategy/controller.go`), together with theorems settling the
specification claims about it.

Conventions:
* Go strings are Lean `String`; `strings.EqualFold` is modelled as ASCII
  case-insensitive comparison via `String.toLower`.
* Go `*bool` / `*int` nullable fields become `Option Bool` / `Option Int`.
* Go `map[string]string` option tables become association lists
  `List (String × String)`; indexing a missing key yields `""`, as in Go.
* The free-form UI option JSON blob (`v1.FreeForm`) becomes the inductive
  `FreeForm` below; JSON values become the tagged `UIVal`.
* Process-wide configuration read through `viper` (platform, default image
  names, documentation URL) and external collaborators that live outside
  this file's source (`storage.ValidTypes`, `cronjob.SupportedStorage`,
  `storage.ShouldDeployElasticsearch`, `util.ImageName`) are injected
  through the `Config` record; those fields are modelled from the spec.
-/

set_option autoImplicit false

namespace JaegerStrategy

/-- `strings.EqualFold`, modelled as ASCII case-insensitive string equality
(computed on the character lists so that it reduces definitionally). -/
def eqFold (a b : String) : Bool :=
  a.data.map Char.toLower == b.data.map Char.toLower

/-- Lookup in a `map[string]string`-style option table; a missing key yields
`""`, matching Go map indexing. -/
def getOpt : List (String × String) → String → String
  | [], _ => ""
  | (k', v) :: rest, k => if k' = k then v else getOpt rest k

/-- A tagged JSON-like value stored in the free-form UI options table
(string / bool / number / nested map / array). -/
inductive UIVal where
  | str : String → UIVal
  | bool : Bool → UIVal
  | num : Int → UIVal
  | map : List (String × UIVal) → UIVal
  | arr : List UIVal → UIVal

/-- The UI option table: a string-keyed association list of tagged values,
modelling a Go `map[string]interface{}`. -/
abbrev UIMap := List (String × UIVal)

/-- First-occurrence lookup in a `UIMap`, modelling `val, ok := m[k]`. -/
def lookupKey : UIMap → String → Option UIVal
  | [], _ => none
  | (k', v) :: rest, k => if k' = k then some v else lookupKey rest k

/-- Map update `m[k] = v`: replaces the binding of `k` when present,
otherwise appends a new binding. -/
def setKey : UIMap → String → UIVal → UIMap
  | [], k, v => [(k, v)]
  | (k', v') :: rest, k, v =>
    if k' = k then (k, v) :: rest else (k', v') :: setKey rest k v

/-- `v1.FreeForm`: a raw JSON blob. `empty` is an absent/empty blob
(`IsEmpty` true), `obj m` a JSON object (`GetMap` succeeds with `m`), and
`nonObj` any other JSON value (`GetMap` fails). -/
inductive FreeForm where
  | empty : FreeForm
  | obj : UIMap → FreeForm
  | nonObj : FreeForm

/-- `v1.JaegerDependenciesSpec` (spark dependencies job), the fields read or
written by normalization. -/
structure JaegerDependenciesSpec where
  enabled : Option Bool
  image : String
  schedule : String

/-- `v1.JaegerEsIndexCleanerSpec`, the fields read or written by
normalization. -/
structure JaegerEsIndexCleanerSpec where
  enabled : Option Bool
  image : String
  schedule : String
  numberOfDays : Option Int

/-- Resource requirements (`corev1.ResourceRequirements`): quantities kept
as opaque strings. -/
structure ResourceRequirements where
  limits : List (String × String)
  requests : List (String × String)

/-- `esv1.ElasticsearchSpec`, the fields read or written by normalization. -/
structure ElasticsearchSpec where
  nodeCount : Int
  redundancyPolicy : String
  resources : Option ResourceRequirements

/-- `v1.JaegerEsRolloverSpec`, the fields read or written by normalization. -/
structure JaegerEsRolloverSpec where
  image : String
  schedule : String

/-- `v1.JaegerStorageSpec`. -/
structure JaegerStorageSpec where
  type : String
  options : List (String × String)
  dependencies : JaegerDependenciesSpec
  esIndexCleaner : JaegerEsIndexCleanerSpec
  elasticsearch : ElasticsearchSpec
  esRollover : JaegerEsRolloverSpec

/-- `v1.JaegerIngressSpec`, the fields read by normalization. -/
structure JaegerIngressSpec where
  enabled : Option Bool
  security : String

/-- `v1.JaegerUISpec`. -/
structure JaegerUISpec where
  options : FreeForm

/-- `v1.JaegerSpec`. -/
structure JaegerSpec where
  strategy : String
  storage : JaegerStorageSpec
  ingress : JaegerIngressSpec
  ui : JaegerUISpec

/-- `v1.Jaeger`: object name plus spec. -/
structure Jaeger where
  name : String
  spec : JaegerSpec

/-- `v1.DeploymentStrategyAllInOne`. -/
def DeploymentStrategyAllInOne : String := "allInOne"

/-- `v1.DeploymentStrategyProduction`. -/
def DeploymentStrategyProduction : String := "production"

/-- `v1.DeploymentStrategyStreaming`. -/
def DeploymentStrategyStreaming : String := "streaming"

/-- `v1.IngressSecurityNoneExplicit` (the user explicitly chose `none`). -/
def IngressSecurityNoneExplicit : String := "none"

/-- `v1.IngressSecurityOAuthProxy`. -/
def IngressSecurityOAuthProxy : String := "oauth-proxy"

/-- `v1.FlagPlatformOpenShift`: the platform that provides a native auth
proxy. -/
def FlagPlatformOpenShift : String := "openshift"

/-- Process-wide configuration and external collaborators, injected as an
explicit value (the source reads them from `viper` and sibling packages).
The last three fields are modelled from the spec: `validTypes` is
`storage.ValidTypes()` (the storage catalog), `supportedStorage` is
`cronjob.SupportedStorage` (whether the backend supports the spark
dependencies job), and `shouldDeployElasticsearch` is
`storage.ShouldDeployElasticsearch` (whether a dedicated Elasticsearch
deployment is auto-provisioned for the spec; per the spec it is a decision
about the storage backend, so it is modelled as reading the storage type
and option table, the storage fields normalization never writes). -/
structure Config where
  platform : String
  sparkDependenciesImage : String
  esIndexCleanerImage : String
  esRolloverImage : String
  documentationURL : String
  validTypes : List String
  supportedStorage : String → Bool
  shouldDeployElasticsearch : String → List (String × String) → Bool

/-- `util.ImageName`, modelled from the spec: returns the supplied image if
set, otherwise the configured default. -/
def ImageName (image deflt : String) : String :=
  if image = "" then deflt else image

/-- `unknownStorage`: true when the type matches no catalog entry under
case-insensitive comparison. -/
def unknownStorage (cfg : Config) (typ : String) : Bool :=
  !cfg.validTypes.any (fun k => eqFold typ k)

/-- `distributedStorage`: backends other than `memory` and `badger` support
a distributed, multi-component deployment. -/
def distributedStorage (storage : String) : Bool :=
  !eqFold storage "memory" && !eqFold storage "badger"

/-- The `tlsIsNotEnabled` condition computed in `normalizeSparkDependencies`:
`es.tls` not "true", `es.tls.skip-host-verify` not "true" (case-insensitively),
and `es.tls.ca` empty. -/
def tlsIsNotEnabled (opts : List (String × String)) : Prop :=
  ¬ eqFold (getOpt opts "es.tls") "true" ∧
  ¬ eqFold (getOpt opts "es.tls.skip-host-verify") "true" ∧
  eqFold (getOpt opts "es.tls.ca") ""

instance (opts : List (String × String)) : Decidable (tlsIsNotEnabled opts) := by
  unfold tlsIsNotEnabled; infer_instance

/-- The action of `normalizeSparkDependencies` on the dependencies
subsection: `ty` and `opts` are the enclosing storage spec's type and
option table, which the function reads but never writes. -/
def sparkDeps (cfg : Config) (ty : String) (opts : List (String × String))
    (d : JaegerDependenciesSpec) : JaegerDependenciesSpec :=
  let d :=
    if cfg.supportedStorage ty ∧ d.enabled = none ∧
        ¬ cfg.shouldDeployElasticsearch ty opts ∧ tlsIsNotEnabled opts
    then { d with enabled := some true }
    else d
  let d := if d.image = "" then { d with image := cfg.sparkDependenciesImage } else d
  if d.schedule = "" then { d with schedule := "55 23 * * *" } else d

/-- `normalizeSparkDependencies`: mutates only `spec.Dependencies`, reading
the storage type and option table. -/
def normalizeSparkDependencies (cfg : Config) (spec : JaegerStorageSpec) :
    JaegerStorageSpec :=
  { spec with dependencies := sparkDeps cfg spec.type spec.options spec.dependencies }

/-- `normalizeIndexCleaner`. -/
def normalizeIndexCleaner (cfg : Config) (spec : JaegerEsIndexCleanerSpec)
    (storage : String) : JaegerEsIndexCleanerSpec :=
  let spec :=
    if storage = "elasticsearch" ∧ spec.enabled = none
    then { spec with enabled := some true }
    else spec
  let spec := { spec with image := ImageName spec.image cfg.esIndexCleanerImage }
  let spec :=
    if spec.schedule = "" then { spec with schedule := "55 23 * * *" } else spec
  if spec.numberOfDays = none then { spec with numberOfDays := some 7 } else spec

/-- The fixed resource bundle built from `defaultEsMemory` (16Gi) and
`defaultEsCPURequest` (1) in `normalizeElasticsearch`. -/
def defaultEsResources : ResourceRequirements :=
  { limits := [("memory", "16Gi")],
    requests := [("memory", "16Gi"), ("cpu", "1")] }

/-- `normalizeElasticsearch`. -/
def normalizeElasticsearch (spec : ElasticsearchSpec) : ElasticsearchSpec :=
  let spec := if spec.nodeCount = 0 then { spec with nodeCount := 3 } else spec
  let spec :=
    if spec.redundancyPolicy = "" then
      if spec.nodeCount = 1
      then { spec with redundancyPolicy := "ZeroRedundancy" }
      else { spec with redundancyPolicy := "SingleRedundancy" }
    else spec
  if spec.resources.isNone then { spec with resources := some defaultEsResources }
  else spec

/-- `normalizeRollover`. -/
def normalizeRollover (cfg : Config) (spec : JaegerEsRolloverSpec) :
    JaegerEsRolloverSpec :=
  let spec := { spec with image := ImageName spec.image cfg.esRolloverImage }
  if spec.schedule = "" then { spec with schedule := "*/30 * * * *" } else spec

/-- `enableArchiveButton`: writes `archiveEnabled = true` when the key is
absent and one of the two archive-storage options is enabled. -/
def enableArchiveButton (uiOpts : UIMap) (sOpts : List (String × String)) :
    UIMap :=
  if (lookupKey uiOpts "archiveEnabled").isNone then
    if eqFold (getOpt sOpts "es-archive.enabled") "true" ∨
        eqFold (getOpt sOpts "cassandra-archive.enabled") "true"
    then setKey uiOpts "archiveEnabled" (UIVal.bool true)
    else uiOpts
  else uiOpts

/-- `disableDependenciesTab`: writes nested `dependencies.menuEnabled = false`
unless the storage supports the tab, the job is enabled, the nested key is
already present, or the existing entry has the wrong shape. -/
def disableDependenciesTab (uiOpts : UIMap) (storage : String)
    (depsEnabled : Option Bool) : UIMap :=
  if eqFold storage "memory" ∨ depsEnabled = some true then uiOpts
  else
    match lookupKey uiOpts "dependencies" with
    | some (UIVal.map deps) =>
      if (lookupKey deps "menuEnabled").isNone then
        setKey uiOpts "dependencies"
          (UIVal.map (setKey deps "menuEnabled" (UIVal.bool false)))
      else uiOpts
    | some _ => uiOpts
    | none =>
      setKey uiOpts "dependencies" (UIVal.map [("menuEnabled", UIVal.bool false)])

/-- The parsed form of the fixed two-entry menu JSON literal built in
`enableLogOut` (an About → Documentation entry with the configured
documentation URL, and a Log Out entry at `/oauth/sign_in`). -/
def menuValue (docURL : String) : UIVal :=
  UIVal.arr
    [ UIVal.map
        [ ("label", UIVal.str "About"),
          ("items", UIVal.arr
            [ UIVal.map
                [ ("label", UIVal.str "Documentation"),
                  ("url", UIVal.str docURL) ] ]) ],
      UIVal.map
        [ ("label", UIVal.str "Log Out"),
          ("url", UIVal.str "/oauth/sign_in"),
          ("anchorTarget", UIVal.str "_self") ] ]

/-- `enableLogOut`: writes the fixed `menu` array when ingress is not
explicitly disabled, the security mode is the OAuth proxy, and the key is
absent. -/
def enableLogOut (cfg : Config) (uiOpts : UIMap) (spec : JaegerSpec) : UIMap :=
  if spec.ingress.enabled = some false ∨
      spec.ingress.security ≠ IngressSecurityOAuthProxy
  then uiOpts
  else if (lookupKey uiOpts "menu").isSome then uiOpts
  else setKey uiOpts "menu" (menuValue cfg.documentationURL)

/-- The `IsEmpty`/`GetMap` load performed by `normalizeUI`: the parsed UI
option table, or the empty table when the blob is absent or not a JSON
object. -/
def loadUIMap : FreeForm → UIMap
  | FreeForm.obj m => m
  | _ => []

/-- `normalizeUI`: loads the UI options, applies the three derivations, and
writes the table back when it is non-empty. -/
def normalizeUI (cfg : Config) (spec : JaegerSpec) : JaegerSpec :=
  let uiOpts := loadUIMap spec.ui.options
  let uiOpts := enableArchiveButton uiOpts spec.storage.options
  let uiOpts :=
    disableDependenciesTab uiOpts spec.storage.type
      spec.storage.dependencies.enabled
  let uiOpts := enableLogOut cfg uiOpts spec
  if 0 < uiOpts.length
  then { spec with ui := { options := FreeForm.obj uiOpts } }
  else spec

/-- The action of stage 1 of `normalize` on the instance name: default an
empty name. -/
def resolveName (n : String) : String :=
  if n = "" then "my-jaeger" else n

/-- The action of stages 2–3 of `normalize` on the storage type: default an
empty type, then replace one that is unknown to the catalog by `memory`. -/
def resolveType (cfg : Config) (t : String) : String :=
  let t := if t = "" then "memory" else t
  if unknownStorage cfg t then "memory" else t

/-- The action of stage 4 of `normalize` on the strategy: anything other
than production or streaming becomes all-in-one. -/
def strategyDefault (s : String) : String :=
  if s ≠ DeploymentStrategyProduction ∧ s ≠ DeploymentStrategyStreaming
  then DeploymentStrategyAllInOne
  else s

/-- The action of stage 5 of `normalize` on the strategy: force all-in-one
when the storage type does not support a distributed deployment. -/
def strategyCompat (ty s : String) : String :=
  if ¬ distributedStorage ty ∧ s ≠ DeploymentStrategyAllInOne
  then DeploymentStrategyAllInOne
  else s

/-- The action of stage 6 of `normalize` on the ingress security mode:
OAuthProxy on OpenShift unless the user explicitly chose `none`, otherwise
NoneExplicit. -/
def resolveSecurity (cfg : Config) (sec : String) : String :=
  if cfg.platform = FlagPlatformOpenShift ∧ sec ≠ IngressSecurityNoneExplicit
  then IngressSecurityOAuthProxy
  else IngressSecurityNoneExplicit

/-- Stage 1 of `normalize`: default an empty name. -/
def stageName (j : Jaeger) : Jaeger :=
  { j with name := resolveName j.name }

/-- Stages 2–3 of `normalize`: normalize the storage type. -/
def stageStorageType (cfg : Config) (j : Jaeger) : Jaeger :=
  { j with spec.storage.type := resolveType cfg j.spec.storage.type }

/-- Stage 4 of `normalize`: default the deployment strategy. -/
def stageStrategy (j : Jaeger) : Jaeger :=
  { j with spec.strategy := strategyDefault j.spec.strategy }

/-- Stage 5 of `normalize`: clean the incompatible storage/strategy
combination. -/
def stageCompat (j : Jaeger) : Jaeger :=
  { j with spec.strategy := strategyCompat j.spec.storage.type j.spec.strategy }

/-- Stage 6 of `normalize`: resolve the ingress security mode. -/
def stageIngress (cfg : Config) (j : Jaeger) : Jaeger :=
  { j with spec.ingress.security := resolveSecurity cfg j.spec.ingress.security }

/-- Stages 7–10 of `normalize`: the four storage-subsection normalizers,
in source order. -/
def normalizeStorage (cfg : Config) (s : JaegerStorageSpec) :
    JaegerStorageSpec :=
  let s := normalizeSparkDependencies cfg s
  let s := { s with esIndexCleaner := normalizeIndexCleaner cfg s.esIndexCleaner s.type }
  let s := { s with elasticsearch := normalizeElasticsearch s.elasticsearch }
  { s with esRollover := normalizeRollover cfg s.esRollover }

/-- `normalize`: the fixed-order defaulting pipeline of
`pkg/strategy/controller.go`. -/
def normalize (cfg : Config) (j : Jaeger) : Jaeger :=
  let j := stageIngress cfg (stageCompat (stageStrategy (stageStorageType cfg (stageName j))))
  let j := { j with spec.storage := normalizeStorage cfg j.spec.storage }
  { j with spec := normalizeUI cfg j.spec }

/-- Stages 1–6 of `normalize` (proof helper: the pipeline up to and
including ingress-security resolution). -/
def midJ (cfg : Config) (j : Jaeger) : Jaeger :=
  stageIngress cfg (stageCompat (stageStrategy (stageStorageType cfg (stageName j))))

/-- The spec handed to `normalizeUI` by `normalize` (proof helper: stages
1–10 without the final UI stage). -/
def preUISpec (cfg : Config) (j : Jaeger) : JaegerSpec :=
  { (midJ cfg j).spec with storage := normalizeStorage cfg (midJ cfg j).spec.storage }

/-- The combined action of the three UI derivations on a loaded option
table (proof helper; `normalizeUI` is definitionally this pipeline followed
by the conditional write-back). -/
def deriveUIMap (cfg : Config) (sp : JaegerSpec) (m : UIMap) : UIMap :=
  enableLogOut cfg
    (disableDependenciesTab (enableArchiveButton m sp.storage.options)
      sp.storage.type sp.storage.dependencies.enabled)
    sp

/-- A concrete process configuration used to evaluate the theorems on
sample inputs (catalog and collaborators modelled from the spec). -/
def exConfig : Config :=
  { platform := "openshift",
    sparkDependenciesImage := "jaegertracing/spark-dependencies",
    esIndexCleanerImage := "jaegertracing/jaeger-es-index-cleaner",
    esRolloverImage := "jaegertracing/jaeger-es-rollover",
    documentationURL := "https://www.jaegertracing.io/docs/latest",
    validTypes := ["memory", "cassandra", "elasticsearch", "kafka", "badger"],
    supportedStorage := fun t => t == "cassandra" || t == "elasticsearch",
    shouldDeployElasticsearch := fun t opts =>
      t == "elasticsearch" && (getOpt opts "es.server-urls" == "") }

/-- A storage subsection with every field at its zero value. -/
def exStorage : JaegerStorageSpec :=
  { type := "",
    options := [],
    dependencies := { enabled := none, image := "", schedule := "" },
    esIndexCleaner := { enabled := none, image := "", schedule := "", numberOfDays := none },
    elasticsearch := { nodeCount := 0, redundancyPolicy := "", resources := none },
    esRollover := { image := "", schedule := "" } }

/-- A wholly default Jaeger instance. -/
def exJaeger : Jaeger :=
  { name := "",
    spec :=
      { strategy := "",
        storage := exStorage,
        ingress := { enabled := none, security := "" },
        ui := { options := FreeForm.empty } } }

/-- A sample instance requesting the production strategy on the in-memory
backend. -/
def exJaegerMemory : Jaeger :=
  { exJaeger with
    spec.strategy := "production",
    spec.storage.type := "memory" }

/-- A sample instance whose storage type matches `elasticsearch` only
case-insensitively. -/
def exJaegerCased : Jaeger :=
  { exJaeger with spec.storage.type := "Elasticsearch" }

/-- A UI option table with all three derived keys explicitly set. -/
def exUIMap : UIMap :=
  [("archiveEnabled", UIVal.bool false),
   ("menu", UIVal.str "custom"),
   ("dependencies", UIVal.map [("menuEnabled", UIVal.bool true)])]

/-- A sample instance carrying `exUIMap` as explicit UI options. -/
def exJaegerUI : Jaeger :=
  { exJaeger with spec.ui := { options := FreeForm.obj exUIMap } }

/-- A spec whose ingress security is already the OAuth proxy. -/
def exSpecOauth : JaegerSpec :=
  { strategy := "",
    storage := exStorage,
    ingress := { enabled := none, security := IngressSecurityOAuthProxy },
    ui := { options := FreeForm.empty } }

/-! ### Basic lemmas about the option-table model -/

attribute [ext] Jaeger JaegerSpec JaegerStorageSpec JaegerIngressSpec
attribute [ext] JaegerUISpec JaegerDependenciesSpec JaegerEsIndexCleanerSpec
attribute [ext] ElasticsearchSpec JaegerEsRolloverSpec ResourceRequirements

theorem lookupKey_setKey_self (m : UIMap) (k : String) (v : UIVal) :
    lookupKey (setKey m k v) k = some v := by
  induction m with
  | nil => simp [setKey, lookupKey]
  | cons p rest ih =>
    obtain ⟨k', v'⟩ := p
    by_cases h : k' = k
    · simp [setKey, lookupKey, h]
    · simp [setKey, lookupKey, h, ih]

theorem lookupKey_setKey_ne (m : UIMap) (k k' : String) (v : UIVal)
    (h : k' ≠ k) : lookupKey (setKey m k v) k' = lookupKey m k' := by
  induction m with
  | nil => simp [setKey, lookupKey, Ne.symm h]
  | cons p rest ih =>
    obtain ⟨k'', v''⟩ := p
    by_cases hk : k'' = k
    · subst hk
      simp [setKey, lookupKey, Ne.symm h]
    · simp [setKey, lookupKey, hk, ih]

/-! ### Frame lemmas: each UI derivation touches only its own key -/

theorem lookupKey_enableArchiveButton_ne (m : UIMap)
    (sOpts : List (String × String)) (k : String) (h : k ≠ "archiveEnabled") :
    lookupKey (enableArchiveButton m sOpts) k = lookupKey m k := by
  unfold enableArchiveButton
  split_ifs <;> simp [lookupKey_setKey_ne _ _ _ _ h]

set_option linter.unnecessarySeqFocus false in
theorem lookupKey_disableDependenciesTab_ne (m : UIMap) (t : String)
    (e : Option Bool) (k : String) (h : k ≠ "dependencies") :
    lookupKey (disableDependenciesTab m t e) k = lookupKey m k := by
  unfold disableDependenciesTab
  split_ifs with hg
  · rfl
  · rcases hm : lookupKey m "dependencies" with _ | val
    · simp [hm, lookupKey_setKey_ne _ _ _ _ h]
    · cases val <;> simp [hm] <;> split_ifs <;>
        simp [lookupKey_setKey_ne _ _ _ _ h]

theorem lookupKey_enableLogOut_ne (cfg : Config) (m : UIMap) (sp : JaegerSpec)
    (k : String) (h : k ≠ "menu") :
    lookupKey (enableLogOut cfg m sp) k = lookupKey m k := by
  unfold enableLogOut
  split_ifs <;> simp [lookupKey_setKey_ne _ _ _ _ h]

/-! ### Fixpoint lemmas for the scalar resolvers -/

theorem resolveName_ne (n : String) : resolveName n ≠ "" := by
  unfold resolveName
  split_ifs with h <;> simp_all

theorem resolveName_idem (n : String) :
    resolveName (resolveName n) = resolveName n := by
  unfold resolveName
  split_ifs <;> simp_all

theorem resolveType_idem (cfg : Config) (t : String) :
    resolveType cfg (resolveType cfg t) = resolveType cfg t := by
  have hmem : ("memory" : String) ≠ "" := by decide
  by_cases h0 : t = "" <;> by_cases hu1 : unknownStorage cfg "memory" = true <;>
    by_cases hu2 : unknownStorage cfg t = true <;>
    simp_all [resolveType, hmem]

theorem strategyDefault_idem (s : String) :
    strategyDefault (strategyDefault s) = strategyDefault s := by
  unfold strategyDefault
  split_ifs <;> simp_all [DeploymentStrategyAllInOne, DeploymentStrategyProduction,
    DeploymentStrategyStreaming]

theorem strategyCompat_not_distributed (ty s : String)
    (h : ¬ distributedStorage ty) :
    strategyCompat ty s = DeploymentStrategyAllInOne := by
  unfold strategyCompat
  split_ifs with hc <;> simp_all

theorem strategyCompat_idem (ty s : String) :
    strategyCompat ty (strategyCompat ty s) = strategyCompat ty s := by
  unfold strategyCompat
  split_ifs <;> simp_all

theorem resolveSecurity_idem (cfg : Config) (sec : String) :
    resolveSecurity cfg (resolveSecurity cfg sec) = resolveSecurity cfg sec := by
  unfold resolveSecurity
  split_ifs <;> simp_all [IngressSecurityOAuthProxy, IngressSecurityNoneExplicit]

/-! ### Stability of the UI derivations (second application is a no-op) -/

theorem normalizeUI_eq (cfg : Config) (sp : JaegerSpec) :
    normalizeUI cfg sp =
      if 0 < (deriveUIMap cfg sp (loadUIMap sp.ui.options)).length
      then { sp with ui := { options := FreeForm.obj (deriveUIMap cfg sp (loadUIMap sp.ui.options)) } }
      else sp := rfl

theorem normalizeUI_storage (cfg : Config) (sp : JaegerSpec) :
    (normalizeUI cfg sp).storage = sp.storage := by
  rw [normalizeUI_eq]
  split <;> rfl

theorem normalizeUI_strategy (cfg : Config) (sp : JaegerSpec) :
    (normalizeUI cfg sp).strategy = sp.strategy := by
  rw [normalizeUI_eq]
  split <;> rfl

theorem normalizeUI_ingress (cfg : Config) (sp : JaegerSpec) :
    (normalizeUI cfg sp).ingress = sp.ingress := by
  rw [normalizeUI_eq]
  split <;> rfl

theorem enableArchiveButton_stable (cfg : Config) (sp : JaegerSpec) (m : UIMap) :
    enableArchiveButton (deriveUIMap cfg sp m) sp.storage.options =
      deriveUIMap cfg sp m := by
  rcases hl : lookupKey (deriveUIMap cfg sp m) "archiveEnabled" with _ | v
  · have h2 : lookupKey (enableArchiveButton m sp.storage.options) "archiveEnabled" = none := by
      rw [deriveUIMap] at hl
      rwa [lookupKey_enableLogOut_ne _ _ _ _ (by decide),
        lookupKey_disableDependenciesTab_ne _ _ _ _ (by decide)] at hl
    have hcond : ¬ (eqFold (getOpt sp.storage.options "es-archive.enabled") "true" = true ∨
        eqFold (getOpt sp.storage.options "cassandra-archive.enabled") "true" = true) := by
      intro hc
      unfold enableArchiveButton at h2
      by_cases hp : (lookupKey m "archiveEnabled").isNone = true
      · rw [if_pos hp, if_pos hc, lookupKey_setKey_self] at h2
        cases h2
      · rw [if_neg hp] at h2
        exact hp (by rw [h2]; rfl)
    unfold enableArchiveButton
    rw [if_pos (by rw [hl]; rfl), if_neg hcond]
  · unfold enableArchiveButton
    rw [if_neg (by rw [hl]; exact fun hh => by cases hh)]

theorem disableDependenciesTab_stable (cfg : Config) (sp : JaegerSpec) (m : UIMap) :
    disableDependenciesTab (deriveUIMap cfg sp m) sp.storage.type
      sp.storage.dependencies.enabled = deriveUIMap cfg sp m := by
  by_cases hg : eqFold sp.storage.type "memory" = true ∨
      sp.storage.dependencies.enabled = some true
  · unfold disableDependenciesTab
    rw [if_pos hg]
  · have hd : lookupKey (deriveUIMap cfg sp m) "dependencies" =
        lookupKey (disableDependenciesTab (enableArchiveButton m sp.storage.options)
          sp.storage.type sp.storage.dependencies.enabled) "dependencies" := by
      rw [deriveUIMap, lookupKey_enableLogOut_ne _ _ _ _ (by decide)]
    rcases hu1 : lookupKey (enableArchiveButton m sp.storage.options) "dependencies"
      with _ | val
    · have hv : lookupKey (deriveUIMap cfg sp m) "dependencies" =
          some (UIVal.map [("menuEnabled", UIVal.bool false)]) := by
        rw [hd]
        unfold disableDependenciesTab
        rw [if_neg hg, hu1, lookupKey_setKey_self]
      unfold disableDependenciesTab
      rw [if_neg hg, hv]
      simp [lookupKey]
    · cases val with
      | map deps =>
        by_cases hmenu : (lookupKey deps "menuEnabled").isNone = true
        · have hv : lookupKey (deriveUIMap cfg sp m) "dependencies" =
              some (UIVal.map (setKey deps "menuEnabled" (UIVal.bool false))) := by
            rw [hd]
            unfold disableDependenciesTab
            rw [if_neg hg, hu1]
            simp only [hmenu, if_pos, if_true]
            rw [lookupKey_setKey_self]
          unfold disableDependenciesTab
          rw [if_neg hg, hv]
          simp [lookupKey_setKey_self]
        · have hv : lookupKey (deriveUIMap cfg sp m) "dependencies" =
              some (UIVal.map deps) := by
            rw [hd]
            unfold disableDependenciesTab
            rw [if_neg hg, hu1]
            simp only [hmenu, if_neg, if_false]
            exact hu1
          unfold disableDependenciesTab
          rw [if_neg hg, hv]
          simp [hmenu]
      | str s =>
        have hv : lookupKey (deriveUIMap cfg sp m) "dependencies" =
            some (UIVal.str s) := by
          rw [hd]
          unfold disableDependenciesTab
          rw [if_neg hg, hu1]
          exact hu1
        unfold disableDependenciesTab
        rw [if_neg hg, hv]
      | bool b =>
        have hv : lookupKey (deriveUIMap cfg sp m) "dependencies" =
            some (UIVal.bool b) := by
          rw [hd]
          unfold disableDependenciesTab
          rw [if_neg hg, hu1]
          exact hu1
        unfold disableDependenciesTab
        rw [if_neg hg, hv]
      | num n =>
        have hv : lookupKey (deriveUIMap cfg sp m) "dependencies" =
            some (UIVal.num n) := by
          rw [hd]
          unfold disableDependenciesTab
          rw [if_neg hg, hu1]
          exact hu1
        unfold disableDependenciesTab
        rw [if_neg hg, hv]
      | arr a =>
        have hv : lookupKey (deriveUIMap cfg sp m) "dependencies" =
            some (UIVal.arr a) := by
          rw [hd]
          unfold disableDependenciesTab
          rw [if_neg hg, hu1]
          exact hu1
        unfold disableDependenciesTab
        rw [if_neg hg, hv]

theorem enableLogOut_stable (cfg : Config) (sp : JaegerSpec) (m : UIMap) :
    enableLogOut cfg (deriveUIMap cfg sp m) sp = deriveUIMap cfg sp m := by
  by_cases hg : sp.ingress.enabled = some false ∨
      sp.ingress.security ≠ IngressSecurityOAuthProxy
  · unfold enableLogOut
    rw [if_pos hg]
  · have hs : (lookupKey (deriveUIMap cfg sp m) "menu").isSome = true := by
      rw [deriveUIMap]
      unfold enableLogOut
      rw [if_neg hg]
      by_cases hp : (lookupKey (disableDependenciesTab (enableArchiveButton m sp.storage.options) sp.storage.type sp.storage.dependencies.enabled) "menu").isSome = true
      · rwa [if_pos hp]
      · rw [if_neg hp, lookupKey_setKey_self]
        rfl
    unfold enableLogOut
    rw [if_neg hg, if_pos hs]

theorem deriveUIMap_stable (cfg : Config) (sp : JaegerSpec) (m : UIMap) :
    deriveUIMap cfg sp (deriveUIMap cfg sp m) = deriveUIMap cfg sp m := by
  show enableLogOut cfg
      (disableDependenciesTab (enableArchiveButton (deriveUIMap cfg sp m) sp.storage.options)
        sp.storage.type sp.storage.dependencies.enabled) sp = deriveUIMap cfg sp m
  rw [enableArchiveButton_stable, disableDependenciesTab_stable, enableLogOut_stable]

theorem deriveUIMap_congr (cfg : Config) (sp sp' : JaegerSpec) (m : UIMap)
    (h1 : sp'.storage.options = sp.storage.options)
    (h2 : sp'.storage.type = sp.storage.type)
    (h3 : sp'.storage.dependencies.enabled = sp.storage.dependencies.enabled)
    (h4 : sp'.ingress = sp.ingress) :
    deriveUIMap cfg sp' m = deriveUIMap cfg sp m := by
  unfold deriveUIMap enableLogOut
  rw [h1, h2, h3, h4]

theorem normalizeUI_idem (cfg : Config) (sp : JaegerSpec) :
    normalizeUI cfg (normalizeUI cfg sp) = normalizeUI cfg sp := by
  by_cases h : 0 < (deriveUIMap cfg sp (loadUIMap sp.ui.options)).length
  · have hinner : normalizeUI cfg sp =
        { sp with ui := { options := FreeForm.obj (deriveUIMap cfg sp (loadUIMap sp.ui.options)) } } := by
      rw [normalizeUI_eq]
      exact if_pos h
    rw [hinner]
    rw [normalizeUI_eq]
    have hc : deriveUIMap cfg
        { sp with ui := { options := FreeForm.obj (deriveUIMap cfg sp (loadUIMap sp.ui.options)) } }
        (loadUIMap ({ sp with ui := { options := FreeForm.obj (deriveUIMap cfg sp (loadUIMap sp.ui.options)) } } : JaegerSpec).ui.options) =
        deriveUIMap cfg sp (loadUIMap sp.ui.options) := by
      rw [show (loadUIMap ({ sp with ui := { options := FreeForm.obj (deriveUIMap cfg sp (loadUIMap sp.ui.options)) } } : JaegerSpec).ui.options) = deriveUIMap cfg sp (loadUIMap sp.ui.options) from rfl]
      rw [deriveUIMap_congr cfg sp _ _ rfl rfl rfl rfl]
      exact deriveUIMap_stable cfg sp _
    rw [hc]
    rw [if_pos h]
  · have hinner : normalizeUI cfg sp = sp := by
      rw [normalizeUI_eq]
      exact if_neg h
    rw [hinner, hinner]

/-! ### Idempotence of the storage-subsection normalizers -/

theorem strategyDefault_on_default (ty s : String) :
    strategyDefault (strategyCompat ty (strategyDefault s)) =
      strategyCompat ty (strategyDefault s) := by
  unfold strategyDefault strategyCompat
  split_ifs <;> simp_all [DeploymentStrategyAllInOne, DeploymentStrategyProduction,
    DeploymentStrategyStreaming]

theorem resolveStrategy_idem (ty s : String) :
    strategyCompat ty (strategyDefault (strategyCompat ty (strategyDefault s))) =
      strategyCompat ty (strategyDefault s) := by
  rw [strategyDefault_on_default, strategyCompat_idem]

theorem sparkDeps_eq (cfg : Config) (ty : String)
    (opts : List (String × String)) (en : Option Bool) (im sch : String) :
    sparkDeps cfg ty opts ⟨en, im, sch⟩ =
      ⟨if cfg.supportedStorage ty = true ∧ en = none ∧
          cfg.shouldDeployElasticsearch ty opts = false ∧ tlsIsNotEnabled opts
        then some true else en,
       if im = "" then cfg.sparkDependenciesImage else im,
       if sch = "" then "55 23 * * *" else sch⟩ := by
  by_cases h1 : (cfg.supportedStorage ty = true ∧ en = none ∧
      cfg.shouldDeployElasticsearch ty opts = false ∧ tlsIsNotEnabled opts) <;>
    by_cases h2 : im = "" <;> by_cases h3 : sch = "" <;>
    simp [sparkDeps, h1, h2, h3]

theorem sparkDeps_idem (cfg : Config) (ty : String)
    (opts : List (String × String)) (d : JaegerDependenciesSpec) :
    sparkDeps cfg ty opts (sparkDeps cfg ty opts d) = sparkDeps cfg ty opts d := by
  rcases d with ⟨en, im, sch⟩
  rw [sparkDeps_eq, sparkDeps_eq]
  simp only [JaegerDependenciesSpec.mk.injEq]
  refine ⟨?_, ?_, ?_⟩
  · by_cases hC : (cfg.supportedStorage ty = true ∧ en = none ∧
        cfg.shouldDeployElasticsearch ty opts = false ∧ tlsIsNotEnabled opts) <;>
      simp [hC]
  · by_cases h2 : im = "" <;> by_cases h4 : cfg.sparkDependenciesImage = "" <;>
      simp [h2, h4]
  · by_cases h3 : sch = "" <;> simp [h3]

theorem ImageName_idem (im d : String) :
    ImageName (ImageName im d) d = ImageName im d := by
  unfold ImageName
  split_ifs <;> simp_all

theorem normalizeIndexCleaner_eq (cfg : Config) (en : Option Bool)
    (im sch : String) (nd : Option Int) (t : String) :
    normalizeIndexCleaner cfg ⟨en, im, sch, nd⟩ t =
      ⟨if t = "elasticsearch" ∧ en = none then some true else en,
       ImageName im cfg.esIndexCleanerImage,
       if sch = "" then "55 23 * * *" else sch,
       if nd = none then some 7 else nd⟩ := by
  by_cases h1 : (t = "elasticsearch" ∧ en = none) <;>
    by_cases h3 : sch = "" <;> by_cases h5 : nd = none <;>
    simp [normalizeIndexCleaner, h1, h3, h5]

theorem normalizeIndexCleaner_idem (cfg : Config) (c : JaegerEsIndexCleanerSpec)
    (t : String) :
    normalizeIndexCleaner cfg (normalizeIndexCleaner cfg c t) t =
      normalizeIndexCleaner cfg c t := by
  rcases c with ⟨en, im, sch, nd⟩
  rw [normalizeIndexCleaner_eq, normalizeIndexCleaner_eq]
  simp only [JaegerEsIndexCleanerSpec.mk.injEq]
  refine ⟨?_, ImageName_idem _ _, ?_, ?_⟩
  · by_cases h1 : (t = "elasticsearch" ∧ en = none) <;> simp [h1]
  · by_cases h3 : sch = "" <;> simp [h3]
  · by_cases h5 : nd = none <;> simp [h5]

theorem normalizeElasticsearch_eq (nc : Int) (rp : String)
    (rs : Option ResourceRequirements) :
    normalizeElasticsearch ⟨nc, rp, rs⟩ =
      ⟨if nc = 0 then 3 else nc,
       if rp = "" then
         (if (if nc = 0 then 3 else nc) = 1 then "ZeroRedundancy" else "SingleRedundancy")
       else rp,
       if rs.isNone then some defaultEsResources else rs⟩ := by
  by_cases h1 : nc = 0 <;> by_cases h2 : rp = "" <;>
    by_cases h3 : nc = 1 <;> by_cases h4 : rs.isNone = true <;>
    simp_all [normalizeElasticsearch]

theorem normalizeElasticsearch_idem (e : ElasticsearchSpec) :
    normalizeElasticsearch (normalizeElasticsearch e) = normalizeElasticsearch e := by
  rcases e with ⟨nc, rp, rs⟩
  rw [normalizeElasticsearch_eq, normalizeElasticsearch_eq]
  simp only [ElasticsearchSpec.mk.injEq]
  by_cases h1 : nc = 0 <;> by_cases h2 : rp = "" <;>
    by_cases h3 : nc = 1 <;> by_cases h4 : rs.isNone = true <;>
    simp_all

theorem normalizeRollover_eq (cfg : Config) (im sch : String) :
    normalizeRollover cfg ⟨im, sch⟩ =
      ⟨ImageName im cfg.esRolloverImage,
       if sch = "" then "*/30 * * * *" else sch⟩ := by
  by_cases h3 : sch = "" <;> simp [normalizeRollover, h3]

theorem normalizeRollover_idem (cfg : Config) (r : JaegerEsRolloverSpec) :
    normalizeRollover cfg (normalizeRollover cfg r) = normalizeRollover cfg r := by
  rcases r with ⟨im, sch⟩
  rw [normalizeRollover_eq, normalizeRollover_eq]
  simp only [JaegerEsRolloverSpec.mk.injEq]
  refine ⟨ImageName_idem _ _, ?_⟩
  by_cases h3 : sch = "" <;> simp [h3]

theorem normalizeStorage_idem (cfg : Config) (S : JaegerStorageSpec) :
    normalizeStorage cfg (normalizeStorage cfg S) = normalizeStorage cfg S := by
  show { S with
      dependencies := sparkDeps cfg S.type S.options (sparkDeps cfg S.type S.options S.dependencies),
      esIndexCleaner := normalizeIndexCleaner cfg (normalizeIndexCleaner cfg S.esIndexCleaner S.type) S.type,
      elasticsearch := normalizeElasticsearch (normalizeElasticsearch S.elasticsearch),
      esRollover := normalizeRollover cfg (normalizeRollover cfg S.esRollover) } =
    normalizeStorage cfg S
  rw [sparkDeps_idem, normalizeIndexCleaner_idem, normalizeElasticsearch_idem,
    normalizeRollover_idem]
  rfl

/-! ### Characterization of `normalize` in terms of the stage actions -/

theorem normalize_decomp (cfg : Config) (j : Jaeger) :
    normalize cfg j = { midJ cfg j with spec := normalizeUI cfg (preUISpec cfg j) } := rfl

theorem normalize_name (cfg : Config) (j : Jaeger) :
    (normalize cfg j).name = resolveName j.name := rfl

theorem normalize_spec_eq (cfg : Config) (j : Jaeger) :
    (normalize cfg j).spec = normalizeUI cfg (preUISpec cfg j) := rfl

theorem normalize_storage (cfg : Config) (j : Jaeger) :
    (normalize cfg j).spec.storage =
      normalizeStorage cfg { j.spec.storage with type := resolveType cfg j.spec.storage.type } := by
  rw [normalize_spec_eq, normalizeUI_storage]
  rfl

theorem normalize_type (cfg : Config) (j : Jaeger) :
    (normalize cfg j).spec.storage.type = resolveType cfg j.spec.storage.type := by
  rw [normalize_storage]
  rfl

theorem normalize_options (cfg : Config) (j : Jaeger) :
    (normalize cfg j).spec.storage.options = j.spec.storage.options := by
  rw [normalize_storage]
  rfl

theorem normalize_strategy (cfg : Config) (j : Jaeger) :
    (normalize cfg j).spec.strategy =
      strategyCompat (resolveType cfg j.spec.storage.type)
        (strategyDefault j.spec.strategy) := by
  rw [normalize_spec_eq, normalizeUI_strategy]
  rfl

theorem normalize_ingress (cfg : Config) (j : Jaeger) :
    (normalize cfg j).spec.ingress =
      { j.spec.ingress with security := resolveSecurity cfg j.spec.ingress.security } := by
  rw [normalize_spec_eq, normalizeUI_ingress]
  rfl

theorem normalize_security (cfg : Config) (j : Jaeger) :
    (normalize cfg j).spec.ingress.security =
      resolveSecurity cfg j.spec.ingress.security := by
  rw [normalize_ingress]

/-! ### Preservation of explicitly set UI keys -/

theorem lookupKey_pos (m : UIMap) (k : String) (v : UIVal)
    (h : lookupKey m k = some v) : 0 < m.length := by
  cases m with
  | nil => cases h
  | cons p rest => simp

theorem enableArchiveButton_present (m : UIMap) (s : List (String × String))
    (v : UIVal) (h : lookupKey m "archiveEnabled" = some v) :
    enableArchiveButton m s = m := by
  have hn : ¬ ((lookupKey m "archiveEnabled").isNone = true) := by
    rw [h]; simp
  unfold enableArchiveButton
  rw [if_neg hn]

theorem enableLogOut_present (cfg : Config) (m : UIMap) (sp : JaegerSpec)
    (v : UIVal) (h : lookupKey m "menu" = some v) :
    enableLogOut cfg m sp = m := by
  unfold enableLogOut
  split_ifs with g hp
  · rfl
  · rfl
  · exact absurd (by rw [h]; rfl) hp

theorem disableDependenciesTab_presentNested (m : UIMap) (t : String)
    (e : Option Bool) (d : UIMap) (v : UIVal)
    (hd : lookupKey m "dependencies" = some (UIVal.map d))
    (hv : lookupKey d "menuEnabled" = some v) :
    disableDependenciesTab m t e = m := by
  unfold disableDependenciesTab
  split_ifs with g
  · rfl
  · simp only [hd]
    simp [hv]

/-! ### Claims -/

/-- C1: Normalization is idempotent: for every input DeploymentSpec (and
fixed process configuration), applying the normalize pipeline twice yields
exactly the same resolved spec as applying it once. -/
theorem C1_normalize_idempotent (cfg : Config) (j : Jaeger) :
    normalize cfg (normalize cfg j) = normalize cfg j := by
  set N := normalize cfg j with hN
  have hname : resolveName N.name = N.name := by
    rw [hN, normalize_name, resolveName_idem]
  have htype : resolveType cfg N.spec.storage.type = N.spec.storage.type := by
    rw [hN, normalize_type, resolveType_idem]
  have hstrat : strategyCompat N.spec.storage.type (strategyDefault N.spec.strategy) =
      N.spec.strategy := by
    rw [hN, normalize_type, normalize_strategy, resolveStrategy_idem]
  have hsec : resolveSecurity cfg N.spec.ingress.security = N.spec.ingress.security := by
    rw [hN, normalize_security, resolveSecurity_idem]
  have hmid : midJ cfg N = N := by
    show { N with
        name := resolveName N.name,
        spec := { N.spec with
          strategy := strategyCompat (resolveType cfg N.spec.storage.type)
            (strategyDefault N.spec.strategy),
          storage := { N.spec.storage with type := resolveType cfg N.spec.storage.type },
          ingress := { N.spec.ingress with
            security := resolveSecurity cfg N.spec.ingress.security } } } = N
    rw [htype, hname, hstrat, hsec]
  have hstore : normalizeStorage cfg N.spec.storage = N.spec.storage := by
    rw [hN, normalize_storage, normalizeStorage_idem]
  have hui : normalizeUI cfg N.spec = N.spec := by
    have hs : N.spec = normalizeUI cfg (preUISpec cfg j) := by
      rw [hN, normalize_spec_eq]
    rw [hs, normalizeUI_idem]
  rw [normalize_decomp cfg N]
  rw [show preUISpec cfg N = { N.spec with storage := normalizeStorage cfg N.spec.storage } from
    by rw [preUISpec, hmid]]
  rw [hstore, hmid]
  show { N with spec := normalizeUI cfg N.spec } = N
  rw [hui]

/-- C2: For every input whose (post-defaulting) storage type is a
non-distributed backend such as the in-memory one, the resolved strategy is
AllInOne, regardless of the strategy the user requested. -/
theorem C2_non_distributed_forces_allInOne (cfg : Config) (j : Jaeger)
    (h : distributedStorage (normalize cfg j).spec.storage.type = false) :
    (normalize cfg j).spec.strategy = DeploymentStrategyAllInOne := by
  rw [normalize_type] at h
  rw [normalize_strategy]
  exact strategyCompat_not_distributed _ _ (by simp [h])

theorem C2_witness :
    (normalize exConfig exJaegerMemory).spec.strategy = DeploymentStrategyAllInOne :=
  C2_non_distributed_forces_allInOne exConfig exJaegerMemory (by rfl)

/-- C3: For every input whose storage type is empty or is not a member of
the storage catalog under case-insensitive comparison, normalization sets
the storage type to the in-memory backend (`memory`); a type that matches a
catalog entry case-insensitively is left as given. -/
theorem C3_storage_type_fallback (cfg : Config) (j : Jaeger) :
    ((j.spec.storage.type = "" ∨ unknownStorage cfg j.spec.storage.type = true) →
      (normalize cfg j).spec.storage.type = "memory") ∧
    ((j.spec.storage.type ≠ "" ∧ unknownStorage cfg j.spec.storage.type = false) →
      (normalize cfg j).spec.storage.type = j.spec.storage.type) := by
  constructor
  · intro h
    rw [normalize_type]
    unfold resolveType
    rcases h with h | h
    · simp [h, ite_self]
    · by_cases h0 : j.spec.storage.type = ""
      · simp [h0, ite_self]
      · simp [h0, h]
  · rintro ⟨h0, hk⟩
    rw [normalize_type]
    unfold resolveType
    simp [h0, hk]

theorem C3_witness :
    (normalize exConfig exJaeger).spec.storage.type = "memory" :=
  (C3_storage_type_fallback exConfig exJaeger).1 (Or.inl rfl)

/-- C4: For every input: if the configured platform is the auth-proxy-capable
one (OpenShift) and the user did not explicitly set ingress security to
`none`, normalization sets ingress security to OAuthProxy; in every other
case it sets it to NoneExplicit. Hence after normalization ingress security
is always exactly one of NoneExplicit or OAuthProxy. -/
theorem C4_ingress_security_resolution (cfg : Config) (j : Jaeger) :
    ((normalize cfg j).spec.ingress.security =
      if cfg.platform = FlagPlatformOpenShift ∧
          j.spec.ingress.security ≠ IngressSecurityNoneExplicit
      then IngressSecurityOAuthProxy
      else IngressSecurityNoneExplicit) ∧
    ((normalize cfg j).spec.ingress.security = IngressSecurityNoneExplicit ∨
     (normalize cfg j).spec.ingress.security = IngressSecurityOAuthProxy) := by
  refine ⟨by rw [normalize_security]; rfl, ?_⟩
  rw [normalize_security]
  unfold resolveSecurity
  split_ifs <;> simp

/-- C5: Explicit-setting precedence: for every input in which the UI option
key `archiveEnabled`, the nested key `dependencies.menuEnabled`, or the key
`menu` is present before normalization, that key's value is identical after
normalization, under all variations of the other inputs. -/
theorem C5_explicit_ui_keys_preserved (cfg : Config) (j : Jaeger) (m : UIMap)
    (hm : j.spec.ui.options = FreeForm.obj m) :
    (∀ v, lookupKey m "archiveEnabled" = some v →
      ∃ m', (normalize cfg j).spec.ui.options = FreeForm.obj m' ∧
        lookupKey m' "archiveEnabled" = some v) ∧
    (∀ v, lookupKey m "menu" = some v →
      ∃ m', (normalize cfg j).spec.ui.options = FreeForm.obj m' ∧
        lookupKey m' "menu" = some v) ∧
    (∀ d v, lookupKey m "dependencies" = some (UIVal.map d) →
      lookupKey d "menuEnabled" = some v →
      ∃ m' d', (normalize cfg j).spec.ui.options = FreeForm.obj m' ∧
        lookupKey m' "dependencies" = some (UIVal.map d') ∧
        lookupKey d' "menuEnabled" = some v) := by
  have hui : (normalize cfg j).spec.ui = (normalizeUI cfg (preUISpec cfg j)).ui := by
    rw [normalize_spec_eq]
  have hload : loadUIMap (preUISpec cfg j).ui.options = m := by
    show loadUIMap j.spec.ui.options = m
    rw [hm]
    rfl
  refine ⟨?_, ?_, ?_⟩
  · intro v hv
    have h1 : enableArchiveButton m (preUISpec cfg j).storage.options = m :=
      enableArchiveButton_present _ _ _ hv
    have hu3 : lookupKey (deriveUIMap cfg (preUISpec cfg j) m) "archiveEnabled" = some v := by
      rw [deriveUIMap, h1,
        lookupKey_enableLogOut_ne _ _ _ _ (by decide),
        lookupKey_disableDependenciesTab_ne _ _ _ _ (by decide)]
      exact hv
    refine ⟨deriveUIMap cfg (preUISpec cfg j) m, ?_, hu3⟩
    rw [hui, normalizeUI_eq, hload, if_pos (lookupKey_pos _ _ _ hu3)]
  · intro v hv
    have hu2 : lookupKey (disableDependenciesTab
        (enableArchiveButton m (preUISpec cfg j).storage.options)
        (preUISpec cfg j).storage.type (preUISpec cfg j).storage.dependencies.enabled)
        "menu" = some v := by
      rw [lookupKey_disableDependenciesTab_ne _ _ _ _ (by decide),
        lookupKey_enableArchiveButton_ne _ _ _ (by decide)]
      exact hv
    have hu3 : lookupKey (deriveUIMap cfg (preUISpec cfg j) m) "menu" = some v := by
      rw [deriveUIMap, enableLogOut_present _ _ _ _ hu2]
      exact hu2
    refine ⟨deriveUIMap cfg (preUISpec cfg j) m, ?_, hu3⟩
    rw [hui, normalizeUI_eq, hload, if_pos (lookupKey_pos _ _ _ hu3)]
  · intro d v hd hv
    have hu1 : lookupKey (enableArchiveButton m (preUISpec cfg j).storage.options)
        "dependencies" = some (UIVal.map d) := by
      rw [lookupKey_enableArchiveButton_ne _ _ _ (by decide)]
      exact hd
    have h2 : disableDependenciesTab
        (enableArchiveButton m (preUISpec cfg j).storage.options)
        (preUISpec cfg j).storage.type (preUISpec cfg j).storage.dependencies.enabled =
        enableArchiveButton m (preUISpec cfg j).storage.options :=
      disableDependenciesTab_presentNested _ _ _ _ _ hu1 hv
    have hu3 : lookupKey (deriveUIMap cfg (preUISpec cfg j) m) "dependencies" =
        some (UIVal.map d) := by
      rw [deriveUIMap, h2, lookupKey_enableLogOut_ne _ _ _ _ (by decide)]
      exact hu1
    refine ⟨deriveUIMap cfg (preUISpec cfg j) m, d, ?_, hu3, hv⟩
    rw [hui, normalizeUI_eq, hload, if_pos (lookupKey_pos _ _ _ hu3)]

theorem C5_witness :
    ∃ m', (normalize exConfig exJaegerUI).spec.ui.options = FreeForm.obj m' ∧
      lookupKey m' "archiveEnabled" = some (UIVal.bool false) :=
  (C5_explicit_ui_keys_preserved exConfig exJaegerUI exUIMap rfl).1
    (UIVal.bool false) rfl

/-- C6: The dependencies (spark) job is auto-enabled (enabled set to true)
if and only if all four conditions hold: the backend supports the job, the
enabled flag is unset, no dedicated search-index (Elasticsearch) deployment
is being auto-provisioned for the spec, and TLS is not configured
(`es.tls` not "true" case-insensitively, `es.tls.skip-host-verify` not
"true" case-insensitively, and `es.tls.ca` empty); if any condition fails
the enabled flag is left unchanged. -/
theorem C6_spark_auto_enable (cfg : Config) (s : JaegerStorageSpec) :
    (normalizeSparkDependencies cfg s).dependencies.enabled =
      if cfg.supportedStorage s.type = true ∧
          s.dependencies.enabled = none ∧
          cfg.shouldDeployElasticsearch s.type s.options = false ∧
          ¬ eqFold (getOpt s.options "es.tls") "true" = true ∧
          ¬ eqFold (getOpt s.options "es.tls.skip-host-verify") "true" = true ∧
          eqFold (getOpt s.options "es.tls.ca") "" = true
      then some true
      else s.dependencies.enabled := by
  rcases s with ⟨ty, opts, d, c, e, r⟩
  rcases d with ⟨en, im, sch⟩
  show (sparkDeps cfg ty opts ⟨en, im, sch⟩).enabled = _
  rw [sparkDeps_eq]
  simp only [tlsIsNotEnabled]

/-- C7: For the nested UI key `dependencies.menuEnabled`: the derivation is
skipped entirely if the key is already present or if an existing
`dependencies` entry is not a nested table (left untouched); otherwise, if
the storage type is the in-memory backend or the dependencies job was
explicitly enabled, the key is left unset, and in every remaining case
`menuEnabled` is written as false. -/
theorem C7_dependencies_menu_derivation (uiOpts : UIMap) (t : String)
    (e : Option Bool) :
    (∀ d, lookupKey uiOpts "dependencies" = some (UIVal.map d) →
      (lookupKey d "menuEnabled").isSome = true →
      disableDependenciesTab uiOpts t e = uiOpts) ∧
    (∀ v, lookupKey uiOpts "dependencies" = some v → (∀ d, v ≠ UIVal.map d) →
      disableDependenciesTab uiOpts t e = uiOpts) ∧
    ((eqFold t "memory" = true ∨ e = some true) →
      disableDependenciesTab uiOpts t e = uiOpts) ∧
    (¬ (eqFold t "memory" = true ∨ e = some true) →
      lookupKey uiOpts "dependencies" = none →
      disableDependenciesTab uiOpts t e =
        setKey uiOpts "dependencies" (UIVal.map [("menuEnabled", UIVal.bool false)])) ∧
    (¬ (eqFold t "memory" = true ∨ e = some true) →
      ∀ d, lookupKey uiOpts "dependencies" = some (UIVal.map d) →
      lookupKey d "menuEnabled" = none →
      disableDependenciesTab uiOpts t e =
        setKey uiOpts "dependencies"
          (UIVal.map (setKey d "menuEnabled" (UIVal.bool false)))) := by
  refine ⟨?_, ?_, ?_, ?_, ?_⟩
  · intro d hd hs
    unfold disableDependenciesTab
    split_ifs with g
    · rfl
    · simp only [hd]
      have hn : ¬ ((lookupKey d "menuEnabled").isNone = true) := by
        cases hx : lookupKey d "menuEnabled" with
        | none => rw [hx] at hs; cases hs
        | some w => simp
      simp [hn]
  · intro v hv hne
    unfold disableDependenciesTab
    split_ifs with g
    · rfl
    · cases v with
      | map d => exact absurd rfl (hne d)
      | str s => simp only [hv]
      | bool b => simp only [hv]
      | num n => simp only [hv]
      | arr a => simp only [hv]
  · intro g
    unfold disableDependenciesTab
    rw [if_pos g]
  · intro g hnone
    unfold disableDependenciesTab
    rw [if_neg g]
    simp only [hnone]
  · intro g d hd hnone
    unfold disableDependenciesTab
    rw [if_neg g]
    simp only [hd]
    simp [hnone]

theorem C7_witness :
    disableDependenciesTab [] "cassandra" none =
      [("dependencies", UIVal.map [("menuEnabled", UIVal.bool false)])] :=
  (C7_dependencies_menu_derivation [] "cassandra" none).2.2.2.1 (by decide) rfl

/-- C8: Elasticsearch defaulting: for every input, a node count of zero is
replaced by 3; if the redundancy policy is unset it becomes ZeroRedundancy
exactly when the (post-defaulting) node count is 1 and SingleRedundancy
otherwise; if the resource-requirements object is entirely absent it is set
to the fixed bundle (memory limit 16Gi, memory request 16Gi, CPU request 1),
and a partially-specified resource object is left untouched with no
field-level merging. -/
theorem C8_elasticsearch_defaults (e : ElasticsearchSpec) :
    (normalizeElasticsearch e).nodeCount = (if e.nodeCount = 0 then 3 else e.nodeCount) ∧
    (normalizeElasticsearch e).redundancyPolicy =
      (if e.redundancyPolicy = "" then
        (if (if e.nodeCount = 0 then 3 else e.nodeCount) = 1 then "ZeroRedundancy"
         else "SingleRedundancy")
       else e.redundancyPolicy) ∧
    (normalizeElasticsearch e).resources =
      (if e.resources.isNone = true then some defaultEsResources else e.resources) := by
  rcases e with ⟨nc, rp, rs⟩
  rw [normalizeElasticsearch_eq]
  exact ⟨rfl, rfl, rfl⟩

/-- C9: The UI `menu` key is written if and only if it is absent before the
derivation, the ingress enabled flag is true or unset (not explicitly
false), and the resolved ingress security is OAuthProxy; when written, its
value is a two-entry navigation array consisting of an About entry
containing a Documentation link using the configured documentation URL, and
a Log Out entry pointing at the fixed path `/oauth/sign_in`. -/
theorem C9_menu_derivation (cfg : Config) (uiOpts : UIMap) (sp : JaegerSpec) :
    (((lookupKey uiOpts "menu").isNone = true ∧ sp.ingress.enabled ≠ some false ∧
        sp.ingress.security = IngressSecurityOAuthProxy) →
      enableLogOut cfg uiOpts sp =
        setKey uiOpts "menu" (menuValue cfg.documentationURL)) ∧
    (¬ ((lookupKey uiOpts "menu").isNone = true ∧ sp.ingress.enabled ≠ some false ∧
        sp.ingress.security = IngressSecurityOAuthProxy) →
      enableLogOut cfg uiOpts sp = uiOpts) ∧
    menuValue cfg.documentationURL = UIVal.arr
      [UIVal.map [("label", UIVal.str "About"),
        ("items", UIVal.arr [UIVal.map
          [("label", UIVal.str "Documentation"),
           ("url", UIVal.str cfg.documentationURL)]])],
       UIVal.map [("label", UIVal.str "Log Out"),
        ("url", UIVal.str "/oauth/sign_in"),
        ("anchorTarget", UIVal.str "_self")]] := by
  refine ⟨?_, ?_, rfl⟩
  · rintro ⟨habs, hen, hsec⟩
    have hg : ¬ (sp.ingress.enabled = some false ∨
        sp.ingress.security ≠ IngressSecurityOAuthProxy) := by
      rintro (h | h)
      · exact hen h
      · exact h hsec
    have hs : ¬ ((lookupKey uiOpts "menu").isSome = true) := by
      cases hx : lookupKey uiOpts "menu" with
      | none => simp
      | some w => rw [hx] at habs; cases habs
    unfold enableLogOut
    rw [if_neg hg, if_neg hs]
  · intro hne
    unfold enableLogOut
    by_cases hg : (sp.ingress.enabled = some false ∨
        sp.ingress.security ≠ IngressSecurityOAuthProxy)
    · rw [if_pos hg]
    · rw [if_neg hg]
      push_neg at hg
      have hp : (lookupKey uiOpts "menu").isSome = true := by
        cases hx : lookupKey uiOpts "menu" with
        | none => exact absurd ⟨by rw [hx]; rfl, hg.1, hg.2⟩ hne
        | some w => rfl
      rw [if_pos hp]

theorem C9_witness :
    enableLogOut exConfig [] exSpecOauth =
      setKey [] "menu" (menuValue exConfig.documentationURL) :=
  (C9_menu_derivation exConfig [] exSpecOauth).1 ⟨rfl, by decide, rfl⟩

/-- C10: Index-cleaner auto-enablement is case-sensitive while storage-type
recognition is not: for every input whose storage type equals
`elasticsearch` only under case-insensitive comparison but not exactly
(e.g. `Elasticsearch`), normalization preserves the user's casing of the
storage type, and the index-cleaner enabled flag, if unset, remains unset
after normalization (it is auto-enabled only when the stored type is
exactly the lowercase string `elasticsearch`). -/
theorem C10_index_cleaner_case_sensitivity (cfg : Config) (j : Jaeger)
    (h1 : eqFold j.spec.storage.type "elasticsearch" = true)
    (h2 : j.spec.storage.type ≠ "elasticsearch")
    (h3 : "elasticsearch" ∈ cfg.validTypes)
    (h4 : j.spec.storage.esIndexCleaner.enabled = none) :
    (normalize cfg j).spec.storage.type = j.spec.storage.type ∧
    (normalize cfg j).spec.storage.esIndexCleaner.enabled = none := by
  have hne : j.spec.storage.type ≠ "" := by
    intro h0
    rw [h0] at h1
    exact absurd h1 (by decide)
  have hunk : unknownStorage cfg j.spec.storage.type = false := by
    have ha : cfg.validTypes.any (fun k => eqFold j.spec.storage.type k) = true :=
      List.any_eq_true.mpr ⟨"elasticsearch", h3, h1⟩
    unfold unknownStorage
    simp [ha]
  have hres : resolveType cfg j.spec.storage.type = j.spec.storage.type := by
    unfold resolveType
    simp [hne, hunk]
  constructor
  · rw [normalize_type, hres]
  · rw [normalize_storage]
    show (normalizeIndexCleaner cfg j.spec.storage.esIndexCleaner
      (resolveType cfg j.spec.storage.type)).enabled = none
    rw [hres]
    rcases hc : j.spec.storage.esIndexCleaner with ⟨en, im, sch, nd⟩
    rw [hc] at h4
    have h4' : en = none := h4
    rw [normalizeIndexCleaner_eq]
    simp [h2, h4']

theorem C10_witness :
    (normalize exConfig exJaegerCased).spec.storage.type = "Elasticsearch" ∧
    (normalize exConfig exJaegerCased).spec.storage.esIndexCleaner.enabled = none :=
  C10_index_cleaner_case_sensitivity exConfig exJaegerCased
    (by decide) (by decide) (by decide) rfl

end JaegerStrategy
